import Mathlib

/-!
# Verification of the PDF-record matching core

A shallow embedding of the matching engine of `match_pdfs_title_doi/match_records.py`:
text normalization, filename decomposition (title / DOI extraction), the
containment-based matching algorithm, duplicate detection, and the post-match
merge / deduplication / exclusion pipeline.

Python strings are modelled as `List Char` (`Str` below); CSV rows (Python dicts
produced by `csv.DictReader`) are modelled as association lists from column name
to value, with `dict.get(col, "")` modelled by `getCol`.
-/

namespace MatchRecords

/-- A Python string, modelled as a list of characters. -/
abbrev Str := List Char

/-- A CSV row: an association list from column name to cell value. -/
abbrev Record := List (Str × Str)

/-- `row.get(col, "")`: the first value stored under `col`, or `""` if absent. -/
def getCol (r : Record) (col : Str) : Str :=
  match r.find? (fun p => p.1 == col) with
  | some p => p.2
  | none => []

/-- `row[col] = v` on a Python dict: replace the (first) binding of `col`,
or append a new binding at the end if `col` is absent. -/
def setCol : Record → Str → Str → Record
  | [], col, v => [(col, v)]
  | p :: rest, col, v =>
    if p.1 == col then (col, v) :: rest else p :: setCol rest col v

/-- Lower-case an ASCII letter, as Python `str.lower` does on ASCII input. -/
def lowerChar (c : Char) : Char :=
  if 'A' ≤ c ∧ c ≤ 'Z' then Char.ofNat (c.toNat + 32) else c

/-- `[a-z]` membership. -/
def isAlphaLower (c : Char) : Bool := 'a' ≤ c && c ≤ 'z'

/-- `[0-9]` membership. -/
def isDigitC (c : Char) : Bool := '0' ≤ c && c ≤ '9'

/-- `normalize_text` (match_records.py, lines 61-80): lower-case the text, then
keep only the characters in `[a-z]` (when `removeNumbers`) or `[a-z0-9]`. -/
def normalize_text (text : Str) (removeNumbers : Bool) : Str :=
  let lowered := text.map lowerChar
  if removeNumbers then lowered.filter isAlphaLower
  else lowered.filter (fun c => isAlphaLower c || isDigitC c)

/-- `[0-9a-fA-F]` membership, as in the ISR encoding regex. -/
def isHexC (c : Char) : Bool :=
  isDigitC c || ('a' ≤ c && c ≤ 'f') || ('A' ≤ c && c ≤ 'F')

/-- One attempt of the regex `#x[0-9a-fA-F]+;` at the head of the string:
on success, return the remainder after the matched escape. -/
def tryEncodingAt : Str → Option Str
  | '#' :: 'x' :: rest =>
    if (rest.takeWhile isHexC).isEmpty then none
    else
      match rest.dropWhile isHexC with
      | ';' :: rest2 => some rest2
      | _ => none
  | _ => none

theorem tryEncodingAt_length {l rest : Str} (h : tryEncodingAt l = some rest) :
    rest.length < l.length := by
  unfold tryEncodingAt at h
  split at h
  · rename_i rest0
    split at h
    · exact absurd h (by simp)
    · split at h
      · rename_i rest2 heq
        injection h with h
        subst h
        have hsub : (rest0.dropWhile isHexC).length ≤ rest0.length :=
          (List.dropWhile_sublist (l := rest0) (p := isHexC)).length_le
        rw [heq] at hsub
        simp only [List.length_cons] at hsub ⊢
        omega
      · exact absurd h (by simp)
  · exact absurd h (by simp)

/-- `remove_isr_encoding` (lines 83-94): delete every non-overlapping,
leftmost-first match of `#x[0-9a-fA-F]+;` from the filename. -/
def remove_isr_encoding : Str → Str
  | [] => []
  | c :: rest =>
    match h : tryEncodingAt (c :: rest) with
    | some rest2 => remove_isr_encoding rest2
    | none => c :: remove_isr_encoding rest
termination_by l => l.length
decreasing_by
  · exact tryEncodingAt_length h
  · simp

/-- The regex `_(\d{4})_` tested at the start of a suffix: an underscore, four
digits, another underscore (with arbitrary text after). -/
def yearMidAt : Str → Bool
  | u1 :: d1 :: d2 :: d3 :: d4 :: u2 :: _ =>
    u1 == '_' && isDigitC d1 && isDigitC d2 && isDigitC d3 && isDigitC d4 && u2 == '_'
  | _ => false

/-- The regex `_(\d{4})$` tested at the start of a suffix: an underscore and
four digits ending the string. -/
def yearEndAt : Str → Bool
  | [u1, d1, d2, d3, d4] =>
    u1 == '_' && isDigitC d1 && isDigitC d2 && isDigitC d3 && isDigitC d4
  | _ => false

/-- `re.search` of a position-tested pattern: the least index whose suffix
matches, scanning left to right (every suffix, the empty one included). -/
def findPatIdx (pat : Str → Bool) : Str → Option Nat
  | [] => if pat [] then some 0 else none
  | c :: rest =>
    if pat (c :: rest) then some 0 else (findPatIdx pat rest).map (· + 1)

/-- `extract_title_from_pdf_name` (lines 97-125): under the year pattern, cut
the name before the leftmost `_dddd_` run; failing that, before a trailing
`_dddd`; otherwise (or when the year pattern is off) return the name whole. -/
def extract_title_from_pdf_name (pdf_name : Str) (has_year_pattern : Bool) : Str :=
  if has_year_pattern then
    match findPatIdx yearMidAt pdf_name with
    | some i => pdf_name.take i
    | none =>
      match findPatIdx yearEndAt pdf_name with
      | some i => pdf_name.take i
      | none => pdf_name
  else pdf_name

/-- `extract_doi_from_pdf_name` (lines 128-145): prepend `10.1111/` to names
starting with `isj.` or `j.1365-2575`; pass through names starting with `10.`;
pass through everything else unchanged. -/
def extract_doi_from_pdf_name (pdf_name : Str) : Str :=
  if ("isj.".toList).isPrefixOf pdf_name then ("10.1111/".toList) ++ pdf_name
  else if ("j.1365-2575".toList).isPrefixOf pdf_name then ("10.1111/".toList) ++ pdf_name
  else if ("10.".toList).isPrefixOf pdf_name then pdf_name
  else pdf_name

/-- The matchable key of one PDF file name (match_records.py, lines 294-309):
DOI matching normalizes the extracted DOI keeping digits; title matching first
strips the ISR encoding when enabled, then extracts the title under the year
pattern and normalizes it dropping digits. -/
def pdfFileKey (use_doi_matching use_special_encoding has_year_pattern : Bool)
    (pdf_name : Str) : Str :=
  if use_doi_matching then
    normalize_text (extract_doi_from_pdf_name pdf_name) false
  else
    let processed_name :=
      if use_special_encoding then remove_isr_encoding pdf_name else pdf_name
    normalize_text (extract_title_from_pdf_name processed_name has_year_pattern) true

/-- Append an entry to the group of `key` in `pdf_normalized_map`, creating the
group at the end on first discovery (Python dict insertion-order semantics). -/
def insertGroup : List (Str × List (Str × Str)) → Str → Str × Str →
    List (Str × List (Str × Str))
  | [], key, item => [(key, [item])]
  | (k, items) :: rest, key, item =>
    if k == key then (k, items ++ [item]) :: rest
    else (k, items) :: insertGroup rest key item

/-- `pdf_normalized_map` (lines 292-313): group the PDF files by their
normalized key, walking the file list left to right so that groups appear in
first-discovery order and files within a group in encounter order. -/
def buildPdfMap (use_doi_matching use_special_encoding has_year_pattern : Bool)
    (pdf_files : List (Str × Str)) : List (Str × List (Str × Str)) :=
  pdf_files.foldl
    (fun m item =>
      insertGroup m
        (pdfFileKey use_doi_matching use_special_encoding has_year_pattern item.1)
        item)
    []

/-- `matching_pdfs` for one row (lines 337-342): walk the map in order and
collect the paths of every group whose key is non-empty and is a prefix of the
row's normalized value. -/
def matchingPdfs : List (Str × List (Str × Str)) → Str → List Str
  | [], _ => []
  | (k, items) :: rest, record_normalized =>
    if !k.isEmpty && k.isPrefixOf record_normalized then
      items.map Prod.snd ++ matchingPdfs rest record_normalized
    else matchingPdfs rest record_normalized

/-- The classification of one row, per iteration of the loop at lines 318-353. -/
inductive MatchOutcome where
  | matchedOne : Str → MatchOutcome
  | unmatchedRow : MatchOutcome
  | multiMatchedRow : List Str → MatchOutcome
deriving DecidableEq

/-- The body of the matching loop for one record (lines 318-353): an empty
match-column value is immediately unmatched; otherwise the row value is
normalized (digits kept iff DOI matching) and the candidate count decides the
outcome. -/
def classifyRecord (pdfMap : List (Str × List (Str × Str)))
    (use_doi_matching : Bool) (match_column : Str) (record : Record) : MatchOutcome :=
  let column_value := getCol record match_column
  if column_value.isEmpty then .unmatchedRow
  else
    let record_normalized :=
      if use_doi_matching then normalize_text column_value false
      else normalize_text column_value true
    match matchingPdfs pdfMap record_normalized with
    | [] => .unmatchedRow
    | [p] => .matchedOne p
    | ps => .multiMatchedRow ps

/-- The matching loop from a starting index: builds the `matched` map, the
`unmatched` index list and the `multi_matched` list, in record order. -/
def matchLoopFrom (pdfMap : List (Str × List (Str × Str)))
    (use_doi_matching : Bool) (match_column : Str) :
    Nat → List Record → List (Nat × Str) × List Nat × List (Nat × List Str)
  | _, [] => ([], [], [])
  | idx, record :: rest =>
    let tail := matchLoopFrom pdfMap use_doi_matching match_column (idx + 1) rest
    match classifyRecord pdfMap use_doi_matching match_column record with
    | .matchedOne p => ((idx, p) :: tail.1, tail.2.1, tail.2.2)
    | .unmatchedRow => (tail.1, idx :: tail.2.1, tail.2.2)
    | .multiMatchedRow ps => (tail.1, tail.2.1, (idx, ps) :: tail.2.2)

/-- `match_pdfs_to_records` (lines 258-355): returns
`(matched, unmatched, multi_matched)` over all records. -/
def match_pdfs_to_records (pdf_files : List (Str × Str)) (records : List Record)
    (match_column : Str)
    (use_doi_matching use_special_encoding has_year_pattern : Bool) :
    List (Nat × Str) × List Nat × List (Nat × List Str) :=
  matchLoopFrom
    (buildPdfMap use_doi_matching use_special_encoding has_year_pattern pdf_files)
    use_doi_matching match_column 0 records

/-- The `Unmatch_Reason` output column name. -/
def unmatchReasonCol : Str := "Unmatch_Reason".toList

/-- The single reason string `process_journal` passes for every unmatched row
(line 749): `"未找到匹配的 PDF 文件"` (no matching PDF file was found). -/
def processJournalUnmatchReason : Str := "未找到匹配的 PDF 文件".toList

/-- Modelled from the spec: the distinct `Unmatched("empty field")` reason the
spec attaches to rows whose match-column value is empty (spec section 4.4 step
2); no such per-row reason string exists in the source, which is what the
claim about it is checked against. -/
def specEmptyFieldReason : Str := "empty field".toList

/-- The rows written by `save_unmatched_csv` (lines 389-418): each unmatched
record, copied, with the `Unmatch_Reason` column set to the caller's reason. -/
def save_unmatched_csv_records (records : List Record)
    (unmatched_indices : List Nat) (reason : Str) : List Record :=
  unmatched_indices.filterMap
    (fun idx => (records.get? idx).map (fun r => setCol r unmatchReasonCol reason))

/-- `value_counts` of `check_duplicates_in_csv` (lines 237-243): count rows by
the normalized value of `column`, skipping rows whose raw value is empty,
keeping first-seen key order. -/
def bumpCount : List (Str × Nat) → Str → List (Str × Nat)
  | [], key => [(key, 1)]
  | (k, n) :: rest, key =>
    if k == key then (k, n + 1) :: rest else (k, n) :: bumpCount rest key

/-- The counting loop of `check_duplicates_in_csv`, left to right. -/
def countValuesLoop (column : Str) (keep_numbers : Bool) :
    List Record → List (Str × Nat) → List (Str × Nat)
  | [], counts => counts
  | record :: rest, counts =>
    let value := getCol record column
    if value.isEmpty then countValuesLoop column keep_numbers rest counts
    else
      countValuesLoop column keep_numbers rest
        (bumpCount counts (normalize_text value keep_numbers))

/-- `value_counts` as a function of the record list. -/
def countValues (records : List Record) (column : Str) (keep_numbers : Bool) :
    List (Str × Nat) :=
  countValuesLoop column keep_numbers records []

/-- The reporting loop of `check_duplicates_in_csv` (lines 245-255): for every
normalized value occurring more than once, report the first record's original
value (truncated to 60 characters) together with the count. -/
def check_duplicates_in_csv (records : List Record) (column : Str)
    (keep_numbers : Bool) : List (Str × Nat) :=
  (countValues records column keep_numbers).filterMap
    (fun vc =>
      if vc.2 > 1 then
        match records.find?
            (fun record =>
              normalize_text (getCol record column) keep_numbers == vc.1) with
        | some record => some ((getCol record column).take 60, vc.2)
        | none => none
      else none)

/-- Python whitespace for `str.strip` (ASCII subset). -/
def isSpaceC (c : Char) : Bool :=
  c == ' ' || c == '\t' || c == '\n' || c == '\r' || c == '\x0b' || c == '\x0c'

/-- Python `str.strip()`. -/
def pyStrip (s : Str) : Str :=
  ((s.dropWhile isSpaceC).reverse.dropWhile isSpaceC).reverse

/-- `generate_doi_url` (lines 453-473): empty or whitespace-only DOI yields the
empty link; a DOI already starting with `http` is returned stripped; otherwise
the resolver base is prepended to the stripped DOI. -/
def generate_doi_url (doi : Str) : Str :=
  if doi.isEmpty || (pyStrip doi).isEmpty then []
  else
    let d := pyStrip doi
    if ("http".toList).isPrefixOf d then d
    else ("https://doi.org/".toList) ++ d

/-- The `DOI` column name. -/
def doiCol : Str := "DOI".toList

/-- The `Journal` output column name. -/
def journalCol : Str := "Journal".toList

/-- The `DOI_Download_Link` output column name. -/
def doiLinkCol : Str := "DOI_Download_Link".toList

/-- The configuration of one `merge_csv_files` call (lines 476-497). -/
structure MergeConfig where
  addJournal : Bool
  addDoiLink : Bool
  deduplicate : Bool
  dedupKey : Str
  excludeKeys : List Str

/-- The per-row decoration of the merge loop (lines 538-543): optionally tag
the row with its journal, optionally attach the generated download link. -/
def processRow (cfg : MergeConfig) (journal : Str) (row : Record) : Record :=
  let row1 := if cfg.addJournal then setCol row journalCol journal else row
  if cfg.addDoiLink then setCol row1 doiLinkCol (generate_doi_url (getCol row1 doiCol))
  else row1

/-- The inner merge loop over one CSV file's rows (lines 524-545): drop rows
whose dedup-key value is excluded; under deduplication drop rows whose key was
already seen and record fresh keys; decorate and keep the rest. Returns the
kept rows and the updated seen set. -/
def mergePartRows (cfg : MergeConfig) (journal : Str) :
    List Record → List Str → List Record × List Str
  | [], seen => ([], seen)
  | row :: rest, seen =>
    let key := getCol row cfg.dedupKey
    if key ∈ cfg.excludeKeys then mergePartRows cfg journal rest seen
    else if cfg.deduplicate && decide (key ∈ seen) then
      mergePartRows cfg journal rest seen
    else
      let seen2 := if cfg.deduplicate then key :: seen else seen
      let out := mergePartRows cfg journal rest seen2
      (processRow cfg journal row :: out.1, out.2)

/-- The outer merge loop over the sorted CSV files (lines 515-556), threading
the seen-key set across files; a partition is a (journal name, rows) pair. -/
def mergePartsLoop (cfg : MergeConfig) :
    List (Str × List Record) → List Str → List Record
  | [], _ => []
  | (journal, rows) :: rest, seen =>
    let out := mergePartRows cfg journal rows seen
    out.1 ++ mergePartsLoop cfg rest out.2

/-- `merge_csv_files` (lines 476-576) restricted to its record-selection and
decoration semantics: which rows, in which form, reach the merged output. -/
def merge_csv_files (cfg : MergeConfig) (parts : List (Str × List Record)) :
    List Record :=
  mergePartsLoop cfg parts []

/-- The configuration of the `ALL_UNMATCHED.csv` merge in `main`
(lines 1040-1048): no journal column, DOI links added, deduplication by the
`DOI` column, excluding the already-matched DOIs. -/
def unmatchedMergeCfg (matched_dois : List Str) : MergeConfig :=
  ⟨false, true, true, doiCol, matched_dois⟩

/-- The decoration applied to surviving rows of the unmatched merge. -/
def addLinkRow (row : Record) : Record :=
  setCol row doiLinkCol (generate_doi_url (getCol row doiCol))

/-! ## Basic lemmas about columns -/

theorem bool_ne_true {b : Bool} (h : b = false) : ¬(b = true) := by
  rw [h]
  exact Bool.false_ne_true

theorem getCol_nil (col : Str) : getCol [] col = [] := rfl

theorem getCol_cons (p : Str × Str) (rest : Record) (col : Str) :
    getCol (p :: rest) col = if p.1 == col then p.2 else getCol rest col := by
  by_cases h : (p.1 == col) = true
  · rw [if_pos h]
    unfold getCol
    rw [@List.find?_cons_of_pos _ (fun q => q.1 == col) p rest h]
  · rw [if_neg h]
    unfold getCol
    rw [@List.find?_cons_of_neg _ (fun q => q.1 == col) p rest h]

theorem setCol_cons (p : Str × Str) (rest : Record) (col v : Str) :
    setCol (p :: rest) col v =
      if p.1 == col then (col, v) :: rest else p :: setCol rest col v := rfl

theorem getCol_setCol_self (r : Record) (col v : Str) :
    getCol (setCol r col v) col = v := by
  induction r with
  | nil => simp [setCol, getCol_cons]
  | cons p rest ih =>
    rw [setCol_cons]
    by_cases h : (p.1 == col) = true
    · rw [if_pos h, getCol_cons, if_pos (by simp)]
    · rw [if_neg h, getCol_cons, if_neg h]
      exact ih

theorem getCol_setCol_ne (r : Record) {col col' : Str} (v : Str) (h : col ≠ col') :
    getCol (setCol r col' v) col = getCol r col := by
  induction r with
  | nil =>
    simp only [setCol, getCol_cons, getCol_nil]
    rw [if_neg (by simpa using Ne.symm h)]
  | cons p rest ih =>
    rw [setCol_cons]
    by_cases hp : (p.1 == col') = true
    · have hp' : p.1 = col' := by simpa using hp
      rw [if_pos hp, getCol_cons, getCol_cons, if_neg (by simpa using Ne.symm h),
        if_neg (by rw [hp']; simpa using Ne.symm h)]
    · rw [if_neg hp, getCol_cons, getCol_cons]
      by_cases hc : (p.1 == col) = true
      · rw [if_pos hc, if_pos hc]
      · rw [if_neg hc, if_neg hc]
        exact ih

theorem two_mem_length {α : Type} {l : List α} {a b : α}
    (ha : a ∈ l) (hb : b ∈ l) (hab : a ≠ b) : 2 ≤ l.length := by
  match l with
  | [] => cases ha
  | [x] =>
    have hax : a = x := by simpa using ha
    have hbx : b = x := by simpa using hb
    exact absurd (hax.trans hbx.symm) hab
  | x :: y :: rest =>
    simp only [List.length_cons]
    omega

/-! ## Leftmost-match lemmas for the year-pattern search -/

theorem findPatIdx_eq_none_iff (pat : Str → Bool) (l : Str) :
    findPatIdx pat l = none ↔ ∀ i, pat (l.drop i) = false := by
  induction l with
  | nil =>
    constructor
    · intro h i
      cases hp : pat [] with
      | false => simpa [List.drop_nil] using hp
      | true => rw [findPatIdx, if_pos hp] at h; cases h
    · intro h
      have h0 : pat [] = false := by simpa using h 0
      rw [findPatIdx, if_neg (by simp [h0])]
  | cons c rest ih =>
    constructor
    · intro h i
      cases hp : pat (c :: rest) with
      | true => rw [findPatIdx, if_pos hp] at h; cases h
      | false =>
        rw [findPatIdx, if_neg (by simp [hp]), Option.map_eq_none'] at h
        match i with
        | 0 => simpa using hp
        | i + 1 => exact (ih.mp h) i
    · intro h
      have h0 : pat (c :: rest) = false := by simpa using h 0
      rw [findPatIdx, if_neg (by simp [h0]), Option.map_eq_none']
      exact ih.mpr (fun i => h (i + 1))

theorem findPatIdx_eq_some_iff (pat : Str → Bool) (l : Str) (i : Nat) :
    findPatIdx pat l = some i ↔
      pat (l.drop i) = true ∧ ∀ j, j < i → pat (l.drop j) = false := by
  induction l generalizing i with
  | nil =>
    cases hp : pat [] with
    | true =>
      rw [findPatIdx, if_pos hp]
      constructor
      · intro h
        injection h with h
        subst h
        exact ⟨by simpa using hp, by omega⟩
      · rintro ⟨-, hmin⟩
        match i with
        | 0 => rfl
        | i + 1 => exact absurd (by simpa using hp) (by simpa using hmin 0 (by omega))
    | false =>
      rw [findPatIdx, if_neg (by simp [hp])]
      constructor
      · intro h; cases h
      · rintro ⟨hpat, -⟩
        rw [List.drop_nil] at hpat
        rw [hp] at hpat
        cases hpat
  | cons c rest ih =>
    cases hp : pat (c :: rest) with
    | true =>
      rw [findPatIdx, if_pos hp]
      constructor
      · intro h
        injection h with h
        subst h
        exact ⟨by simpa using hp, by omega⟩
      · rintro ⟨-, hmin⟩
        match i with
        | 0 => rfl
        | i + 1 => exact absurd (by simpa using hp) (by simpa using hmin 0 (by omega))
    | false =>
      rw [findPatIdx, if_neg (by simp [hp]), Option.map_eq_some']
      constructor
      · rintro ⟨i', hi', rfl⟩
        obtain ⟨hpat, hmin⟩ := (ih i').mp hi'
        refine ⟨by simpa using hpat, ?_⟩
        intro j hj
        match j with
        | 0 => simpa using hp
        | j + 1 => exact hmin j (by omega)
      · rintro ⟨hpat, hmin⟩
        match i with
        | 0 => exact absurd (by simpa using hpat) (by simp [hp])
        | i + 1 =>
          refine ⟨i, (ih i).mpr ⟨by simpa using hpat, ?_⟩, rfl⟩
          intro j hj
          have := hmin (j + 1) (by omega)
          simpa using this

/-- A pattern false on every suffix up to the string's length is false on every
suffix (the longer drops are all the empty suffix). -/
theorem pat_all_false_of_bounded {pat : Str → Bool} {l : Str}
    (h : ∀ i, i ≤ l.length → pat (l.drop i) = false) :
    ∀ i, pat (l.drop i) = false := by
  intro i
  by_cases hi : i ≤ l.length
  · exact h i hi
  · have hd : l.drop i = [] := List.drop_eq_nil_of_le (by omega)
    have h2 := h l.length (le_refl _)
    rw [List.drop_length] at h2
    rw [hd]
    exact h2

/-- C7: for every filename, title decoding with the year pattern enabled
returns the prefix before the leftmost underscore-delimited 4-digit run
(underscore, 4 digits, underscore); failing that, the prefix before a 4-digit
run bounded by an underscore and the end of the string; if neither exists, or
the year pattern is disabled, the filename is returned unchanged. -/
theorem C7_title_decoding (name : Str) :
    (extract_title_from_pdf_name name false = name) ∧
    (∀ i, yearMidAt (name.drop i) = true →
      (∀ j, j < i → yearMidAt (name.drop j) = false) →
      extract_title_from_pdf_name name true = name.take i) ∧
    ((∀ i, yearMidAt (name.drop i) = false) →
      ∀ i, yearEndAt (name.drop i) = true →
      (∀ j, j < i → yearEndAt (name.drop j) = false) →
      extract_title_from_pdf_name name true = name.take i) ∧
    ((∀ i, yearMidAt (name.drop i) = false) →
      (∀ i, yearEndAt (name.drop i) = false) →
      extract_title_from_pdf_name name true = name) := by
  refine ⟨rfl, ?_, ?_, ?_⟩
  · intro i hi hmin
    have h : findPatIdx yearMidAt name = some i :=
      (findPatIdx_eq_some_iff yearMidAt name i).mpr ⟨hi, hmin⟩
    simp [extract_title_from_pdf_name, h]
  · intro hnone i hi hmin
    have h1 : findPatIdx yearMidAt name = none :=
      (findPatIdx_eq_none_iff yearMidAt name).mpr hnone
    have h2 : findPatIdx yearEndAt name = some i :=
      (findPatIdx_eq_some_iff yearEndAt name i).mpr ⟨hi, hmin⟩
    simp [extract_title_from_pdf_name, h1, h2]
  · intro hnone1 hnone2
    have h1 : findPatIdx yearMidAt name = none :=
      (findPatIdx_eq_none_iff yearMidAt name).mpr hnone1
    have h2 : findPatIdx yearEndAt name = none :=
      (findPatIdx_eq_none_iff yearEndAt name).mpr hnone2
    simp [extract_title_from_pdf_name, h1, h2]

/-- Witness for C7 at concrete filenames: `Study_2021_DSS` decodes to `Study`
via its leftmost `_2021_` run, `Name_2021` via its trailing run, and a
patternless name is returned unchanged. -/
theorem C7_title_decoding_witness :
    extract_title_from_pdf_name ("Study_2021_DSS".toList) true = ("Study".toList) ∧
    extract_title_from_pdf_name ("Name_2021".toList) true = ("Name".toList) ∧
    extract_title_from_pdf_name ("NoYear".toList) true = ("NoYear".toList) := by
  refine ⟨?_, ?_, ?_⟩
  · have h := (C7_title_decoding ("Study_2021_DSS".toList)).2.1 5
      (by decide) (by decide)
    exact h.trans (by decide)
  · have h := (C7_title_decoding ("Name_2021".toList)).2.2.1
      (pat_all_false_of_bounded (by decide)) 4 (by decide) (by decide)
    exact h.trans (by decide)
  · exact (C7_title_decoding ("NoYear".toList)).2.2.2
      (pat_all_false_of_bounded (by decide)) (pat_all_false_of_bounded (by decide))

/-- C8: identifier decoding prepends `10.1111/` exactly when the filename
starts with one of the two registrar prefixes (`isj.`, `j.1365-2575`); a name
starting with `10.` is returned unchanged; any other name is passed through
unchanged with no validation. -/
theorem head_eq_of_isPrefixOf {a : Char} {as l : Str}
    (h : (a :: as).isPrefixOf l = true) : ∃ t, l = a :: t := by
  cases l with
  | nil => simp [List.isPrefixOf] at h
  | cons b bs =>
    simp only [List.isPrefixOf, Bool.and_eq_true, beq_iff_eq] at h
    exact ⟨bs, by rw [h.1]⟩

theorem extract_doi_eval_isj {name : Str}
    (h : ("isj.".toList).isPrefixOf name = true) :
    extract_doi_from_pdf_name name = ("10.1111/".toList) ++ name := by
  unfold extract_doi_from_pdf_name
  rw [if_pos h]

theorem extract_doi_eval_j1365 {name : Str}
    (h : ("j.1365-2575".toList).isPrefixOf name = true) :
    extract_doi_from_pdf_name name = ("10.1111/".toList) ++ name := by
  unfold extract_doi_from_pdf_name
  by_cases h1 : ("isj.".toList).isPrefixOf name = true
  · rw [if_pos h1]
  · rw [if_neg h1, if_pos h]

theorem extract_doi_eval_other {name : Str}
    (h1 : ("isj.".toList).isPrefixOf name = false)
    (h2 : ("j.1365-2575".toList).isPrefixOf name = false) :
    extract_doi_from_pdf_name name = name := by
  unfold extract_doi_from_pdf_name
  rw [if_neg (bool_ne_true h1), if_neg (bool_ne_true h2)]
  by_cases h3 : ("10.".toList).isPrefixOf name = true
  · rw [if_pos h3]
  · rw [if_neg h3]

/-- C8: identifier decoding prepends `10.1111/` exactly when the filename
starts with one of the two registrar prefixes (`isj.`, `j.1365-2575`); a name
starting with `10.` is returned unchanged; any other name is passed through
unchanged with no validation. -/
theorem C8_identifier_decoding (name : Str) :
    (extract_doi_from_pdf_name name = ("10.1111/".toList) ++ name ↔
      ("isj.".toList).isPrefixOf name = true ∨
      ("j.1365-2575".toList).isPrefixOf name = true) ∧
    (("10.".toList).isPrefixOf name = true → extract_doi_from_pdf_name name = name) ∧
    (("isj.".toList).isPrefixOf name = false →
      ("j.1365-2575".toList).isPrefixOf name = false →
      ("10.".toList).isPrefixOf name = false →
      extract_doi_from_pdf_name name = name) := by
  have hne : ∀ m : Str, m ≠ ("10.1111/".toList) ++ m := by
    intro m h
    have hl := congrArg List.length h
    rw [List.length_append] at hl
    have h8 : (("10.1111/".toList) : Str).length = 8 := by decide
    omega
  refine ⟨?_, ?_, ?_⟩
  · constructor
    · intro h
      by_cases h1 : ("isj.".toList).isPrefixOf name = true
      · exact Or.inl h1
      · by_cases h2 : ("j.1365-2575".toList).isPrefixOf name = true
        · exact Or.inr h2
        · exfalso
          apply hne name
          rw [← h]
          exact (extract_doi_eval_other (eq_false_of_ne_true h1)
            (eq_false_of_ne_true h2)).symm
    · rintro (h | h)
      · exact extract_doi_eval_isj h
      · exact extract_doi_eval_j1365 h
  · intro h10
    have h1 : ("isj.".toList).isPrefixOf name = false := by
      cases hb : ("isj.".toList).isPrefixOf name with
      | false => rfl
      | true =>
        obtain ⟨t1, e1⟩ := head_eq_of_isPrefixOf hb
        obtain ⟨t2, e2⟩ := head_eq_of_isPrefixOf h10
        rw [e1] at e2
        injection e2 with e2h _
        exact absurd e2h (by decide)
    have h2 : ("j.1365-2575".toList).isPrefixOf name = false := by
      cases hb : ("j.1365-2575".toList).isPrefixOf name with
      | false => rfl
      | true =>
        obtain ⟨t1, e1⟩ := head_eq_of_isPrefixOf hb
        obtain ⟨t2, e2⟩ := head_eq_of_isPrefixOf h10
        rw [e1] at e2
        injection e2 with e2h _
        exact absurd e2h (by decide)
    exact extract_doi_eval_other h1 h2
  · intro h1 h2 _
    exact extract_doi_eval_other h1 h2

/-- Witness for C8 at concrete filenames: `isj.12026` and `j.1365-2575.x` gain
the `10.1111/` resolver prefix, `10.1016/x` and `randomname` pass through. -/
theorem C8_identifier_decoding_witness :
    extract_doi_from_pdf_name ("isj.12026".toList) = ("10.1111/isj.12026".toList) ∧
    extract_doi_from_pdf_name ("10.1016/x".toList) = ("10.1016/x".toList) ∧
    extract_doi_from_pdf_name ("randomname".toList) = ("randomname".toList) := by
  refine ⟨?_, ?_, ?_⟩
  · have h := (C8_identifier_decoding ("isj.12026".toList)).1.mpr (Or.inl (by decide))
    exact h.trans (by decide)
  · exact (C8_identifier_decoding ("10.1016/x".toList)).2.1 (by decide)
  · exact (C8_identifier_decoding ("randomname".toList)).2.2 (by decide) (by decide)
      (by decide)

/-! ## The containment-matching relation -/

theorem isEmpty_false_iff (l : Str) : l.isEmpty = false ↔ l ≠ [] := by
  cases l <;> simp

/-- The row's normalized match-column value, as computed at lines 327-330. -/
def rowNormalized (use_doi_matching : Bool) (match_column : Str) (record : Record) :
    Str :=
  if use_doi_matching then normalize_text (getCol record match_column) false
  else normalize_text (getCol record match_column) true

theorem mem_matchingPdfs {pdfMap : List (Str × List (Str × Str))}
    {recNorm : Str} {p : Str} :
    p ∈ matchingPdfs pdfMap recNorm ↔
      ∃ k g, (k, g) ∈ pdfMap ∧ k ≠ [] ∧ k.isPrefixOf recNorm = true ∧
        ∃ n, (n, p) ∈ g := by
  induction pdfMap with
  | nil => simp [matchingPdfs]
  | cons e rest ih =>
    obtain ⟨k0, g0⟩ := e
    rw [matchingPdfs]
    by_cases hc : (!k0.isEmpty && k0.isPrefixOf recNorm) = true
    · rw [if_pos hc]
      rw [Bool.and_eq_true, Bool.not_eq_true'] at hc
      have hk0 : k0 ≠ [] := (isEmpty_false_iff k0).mp hc.1
      constructor
      · intro hp
        rcases List.mem_append.mp hp with hin | hin
        · obtain ⟨⟨n, p'⟩, hmem, hp'⟩ := List.mem_map.mp hin
          have hp'' : p' = p := hp'
          subst hp''
          exact ⟨k0, g0, List.mem_cons_self _ _, hk0, hc.2, n, hmem⟩
        · obtain ⟨k, g, hmem, hk, hpre, n, hn⟩ := ih.mp hin
          exact ⟨k, g, List.mem_cons_of_mem _ hmem, hk, hpre, n, hn⟩
      · rintro ⟨k, g, hmem, hk, hpre, n, hn⟩
        rcases List.mem_cons.mp hmem with heq | htail
        · injection heq with h1 h2
          subst h1 h2
          exact List.mem_append.mpr (Or.inl (List.mem_map.mpr ⟨(n, p), hn, rfl⟩))
        · exact List.mem_append.mpr (Or.inr (ih.mpr ⟨k, g, htail, hk, hpre, n, hn⟩))
    · rw [if_neg hc]
      rw [ih]
      constructor
      · rintro ⟨k, g, hmem, hk, hpre, n, hn⟩
        exact ⟨k, g, List.mem_cons_of_mem _ hmem, hk, hpre, n, hn⟩
      · rintro ⟨k, g, hmem, hk, hpre, n, hn⟩
        rcases List.mem_cons.mp hmem with heq | htail
        · injection heq with h1 h2
          subst h1 h2
          exfalso
          apply hc
          rw [Bool.and_eq_true, Bool.not_eq_true']
          exact ⟨(isEmpty_false_iff k).mpr hk, hpre⟩
        · exact ⟨k, g, htail, hk, hpre, n, hn⟩

/-- If a group is present in the map with a matching non-empty key, the row's
candidate list is at least as long as that group. -/
theorem matchingPdfs_length_ge {pdfMap : List (Str × List (Str × Str))}
    {recNorm k : Str} {g : List (Str × Str)}
    (hmem : (k, g) ∈ pdfMap) (hk : k ≠ [])
    (hpre : k.isPrefixOf recNorm = true) :
    g.length ≤ (matchingPdfs pdfMap recNorm).length := by
  induction pdfMap with
  | nil => cases hmem
  | cons e rest ih =>
    obtain ⟨k0, g0⟩ := e
    rw [matchingPdfs]
    rcases List.mem_cons.mp hmem with heq | htail
    · injection heq with h1 h2
      subst h1 h2
      rw [if_pos (by
        rw [Bool.and_eq_true, Bool.not_eq_true']
        exact ⟨(isEmpty_false_iff k).mpr hk, hpre⟩)]
      rw [List.length_append, List.length_map]
      omega
    · by_cases hc : (!k0.isEmpty && k0.isPrefixOf recNorm) = true
      · rw [if_pos hc, List.length_append]
        have := ih htail
        omega
      · rw [if_neg hc]
        exact ih htail

/-! ## The grouped file map -/

theorem insertGroup_mem_cases {m : List (Str × List (Str × Str))} {key : Str}
    {item : Str × Str} {k : Str} {g : List (Str × Str)}
    (hmem : (k, g) ∈ insertGroup m key item) :
    ∀ np ∈ g, (∃ g0, (k, g0) ∈ m ∧ np ∈ g0) ∨ (np = item ∧ k = key) := by
  induction m with
  | nil =>
    rw [insertGroup] at hmem
    rcases List.mem_cons.mp hmem with heq | h
    · injection heq with h1 h2
      subst h1 h2
      intro np hnp
      have : np = item := by simpa using hnp
      exact Or.inr ⟨this, rfl⟩
    · cases h
  | cons e rest ih =>
    obtain ⟨k0, g0⟩ := e
    rw [insertGroup] at hmem
    by_cases hc : (k0 == key) = true
    · rw [if_pos hc] at hmem
      have hk0 : k0 = key := by simpa using hc
      rcases List.mem_cons.mp hmem with heq | htail
      · injection heq with h1 h2
        subst h1 h2
        intro np hnp
        rcases List.mem_append.mp hnp with hin | hin
        · exact Or.inl ⟨g0, List.mem_cons_self _ _, hin⟩
        · have : np = item := by simpa using hin
          exact Or.inr ⟨this, hk0⟩
      · intro np hnp
        exact Or.inl ⟨g, List.mem_cons_of_mem _ htail, hnp⟩
    · rw [if_neg hc] at hmem
      rcases List.mem_cons.mp hmem with heq | htail
      · injection heq with h1 h2
        subst h1 h2
        intro np hnp
        exact Or.inl ⟨g, List.mem_cons_self _ _, hnp⟩
      · intro np hnp
        rcases ih htail np hnp with ⟨g1, hg1, hnp1⟩ | hr
        · exact Or.inl ⟨g1, List.mem_cons_of_mem _ hg1, hnp1⟩
        · exact Or.inr hr

theorem insertGroup_preserves {m : List (Str × List (Str × Str))} {key : Str}
    {item : Str × Str} {k : Str} {g : List (Str × Str)} {np : Str × Str}
    (hmem : (k, g) ∈ m) (hnp : np ∈ g) :
    ∃ g', (k, g') ∈ insertGroup m key item ∧ np ∈ g' := by
  induction m with
  | nil => cases hmem
  | cons e rest ih =>
    obtain ⟨k0, g0⟩ := e
    rw [insertGroup]
    by_cases hc : (k0 == key) = true
    · rw [if_pos hc]
      rcases List.mem_cons.mp hmem with heq | htail
      · injection heq with h1 h2
        subst h1 h2
        exact ⟨g ++ [item], List.mem_cons_self _ _,
          List.mem_append.mpr (Or.inl hnp)⟩
      · exact ⟨g, List.mem_cons_of_mem _ htail, hnp⟩
    · rw [if_neg hc]
      rcases List.mem_cons.mp hmem with heq | htail
      · injection heq with h1 h2
        subst h1 h2
        exact ⟨g, List.mem_cons_self _ _, hnp⟩
      · obtain ⟨g', hg', hnp'⟩ := ih htail
        exact ⟨g', List.mem_cons_of_mem _ hg', hnp'⟩

theorem insertGroup_adds (m : List (Str × List (Str × Str))) (key : Str)
    (item : Str × Str) :
    ∃ g', (key, g') ∈ insertGroup m key item ∧ item ∈ g' := by
  induction m with
  | nil => exact ⟨[item], List.mem_cons_self _ _, List.mem_cons_self _ _⟩
  | cons e rest ih =>
    obtain ⟨k0, g0⟩ := e
    rw [insertGroup]
    by_cases hc : (k0 == key) = true
    · rw [if_pos hc]
      have hk0 : k0 = key := by simpa using hc
      subst hk0
      exact ⟨g0 ++ [item], List.mem_cons_self _ _,
        List.mem_append.mpr (Or.inr (List.mem_cons_self _ _))⟩
    · rw [if_neg hc]
      obtain ⟨g', hg', hitem⟩ := ih
      exact ⟨g', List.mem_cons_of_mem _ hg', hitem⟩

/-- Soundness of the grouped map, generalized over the fold accumulator. -/
theorem buildPdfMap_aux_sound (u s y : Bool) (P : Str × Str → Prop) :
    ∀ (fs : List (Str × Str)) (acc : List (Str × List (Str × Str))),
    (∀ np ∈ fs, P np) →
    (∀ k g, (k, g) ∈ acc → ∀ np ∈ g, P np ∧ pdfFileKey u s y np.1 = k) →
    ∀ k g,
    (k, g) ∈ fs.foldl (fun m item => insertGroup m (pdfFileKey u s y item.1) item) acc →
    ∀ np ∈ g, P np ∧ pdfFileKey u s y np.1 = k := by
  intro fs
  induction fs with
  | nil =>
    intro acc _ hacc k g hmem np hnp
    exact hacc k g hmem np hnp
  | cons f fs' ih =>
    intro acc hfs hacc k g hmem np hnp
    rw [List.foldl_cons] at hmem
    refine ih (insertGroup acc (pdfFileKey u s y f.1) f)
      (fun np' hnp' => hfs np' (List.mem_cons_of_mem _ hnp')) ?_ k g hmem np hnp
    intro k' g' hg' np' hnp'
    rcases insertGroup_mem_cases hg' np' hnp' with ⟨g0, hg0, hnp0⟩ | ⟨hnp0, hk0⟩
    · exact hacc k' g0 hg0 np' hnp0
    · subst hnp0 hk0
      exact ⟨hfs np' (List.mem_cons_self _ _), rfl⟩

theorem buildPdfMap_sound {u s y : Bool} {fs : List (Str × Str)}
    {k : Str} {g : List (Str × Str)} (h : (k, g) ∈ buildPdfMap u s y fs) :
    ∀ np ∈ g, np ∈ fs ∧ pdfFileKey u s y np.1 = k :=
  buildPdfMap_aux_sound u s y (· ∈ fs) fs [] (fun _ hnp => hnp)
    (fun _ _ hmem => absurd hmem (List.not_mem_nil _)) k g h

/-- Completeness of the grouped map, generalized over the fold accumulator. -/
theorem buildPdfMap_aux_complete (u s y : Bool) :
    ∀ (fs : List (Str × Str)) (acc : List (Str × List (Str × Str)))
      (np : Str × Str),
    ((∃ g, (pdfFileKey u s y np.1, g) ∈ acc ∧ np ∈ g) ∨ np ∈ fs) →
    ∃ g, (pdfFileKey u s y np.1, g) ∈
        fs.foldl (fun m item => insertGroup m (pdfFileKey u s y item.1) item) acc ∧
      np ∈ g := by
  intro fs
  induction fs with
  | nil =>
    intro acc np h
    rcases h with h | h
    · exact h
    · cases h
  | cons f fs' ih =>
    intro acc np h
    rw [List.foldl_cons]
    rcases h with ⟨g, hg, hnp⟩ | h
    · exact ih _ np (Or.inl (insertGroup_preserves hg hnp))
    · rcases List.mem_cons.mp h with heq | htail
      · subst heq
        exact ih _ np (Or.inl (insertGroup_adds acc (pdfFileKey u s y np.1) np))
      · exact ih _ np (Or.inr htail)

theorem buildPdfMap_complete {u s y : Bool} {fs : List (Str × Str)}
    {np : Str × Str} (h : np ∈ fs) :
    ∃ g, (pdfFileKey u s y np.1, g) ∈ buildPdfMap u s y fs ∧ np ∈ g :=
  buildPdfMap_aux_complete u s y fs [] np (Or.inr h)

/-- A file's path is among a row's candidates iff some file of the set bears
it, with a non-empty normalized key that prefixes the row's normalized text. -/
theorem matchesRow_iff (u s y : Bool) (fs : List (Str × Str)) (recNorm p : Str) :
    p ∈ matchingPdfs (buildPdfMap u s y fs) recNorm ↔
      ∃ n, (n, p) ∈ fs ∧ pdfFileKey u s y n ≠ [] ∧
        (pdfFileKey u s y n).isPrefixOf recNorm = true := by
  constructor
  · intro hp
    obtain ⟨k, g, hmem, hk, hpre, n, hn⟩ := mem_matchingPdfs.mp hp
    obtain ⟨hfs, hkey⟩ := buildPdfMap_sound hmem (n, p) hn
    exact ⟨n, hfs, by rwa [hkey], by rwa [hkey]⟩
  · rintro ⟨n, hfs, hk, hpre⟩
    obtain ⟨g, hg, hnp⟩ := @buildPdfMap_complete u s y fs (n, p) hfs
    exact mem_matchingPdfs.mpr ⟨pdfFileKey u s y n, g, hg, hk, hpre, n, hnp⟩

/-! ## Unique keys of the grouped map -/

theorem mem_keys_insertGroup {m : List (Str × List (Str × Str))} {key : Str}
    {item : Str × Str} {a : Str}
    (h : a ∈ (insertGroup m key item).map Prod.fst) :
    a ∈ m.map Prod.fst ∨ a = key := by
  induction m with
  | nil =>
    rw [insertGroup] at h
    simp at h
    exact Or.inr h
  | cons e rest ih =>
    obtain ⟨k0, g0⟩ := e
    rw [insertGroup] at h
    by_cases hc : (k0 == key) = true
    · rw [if_pos hc] at h
      simp only [List.map_cons] at h ⊢
      exact Or.inl h
    · rw [if_neg hc] at h
      simp only [List.map_cons, List.mem_cons] at h ⊢
      rcases h with h | h
      · exact Or.inl (Or.inl h)
      · rcases ih h with h' | h'
        · exact Or.inl (Or.inr h')
        · exact Or.inr h'

theorem keys_nodup_insertGroup {m : List (Str × List (Str × Str))} {key : Str}
    {item : Str × Str} (h : (m.map Prod.fst).Nodup) :
    ((insertGroup m key item).map Prod.fst).Nodup := by
  induction m with
  | nil =>
    rw [insertGroup]
    simp
  | cons e rest ih =>
    obtain ⟨k0, g0⟩ := e
    rw [insertGroup]
    simp only [List.map_cons, List.nodup_cons] at h
    by_cases hc : (k0 == key) = true
    · rw [if_pos hc]
      simp only [List.map_cons, List.nodup_cons]
      exact h
    · rw [if_neg hc]
      simp only [List.map_cons, List.nodup_cons]
      refine ⟨?_, ih h.2⟩
      intro hin
      rcases mem_keys_insertGroup hin with h' | h'
      · exact h.1 h'
      · exact hc (by simpa using h')

theorem buildPdfMap_keys_nodup (u s y : Bool) (fs : List (Str × Str)) :
    ((buildPdfMap u s y fs).map Prod.fst).Nodup := by
  suffices hgen : ∀ (l : List (Str × Str)) (acc : List (Str × List (Str × Str))),
      (acc.map Prod.fst).Nodup →
      (((l.foldl (fun m item =>
          insertGroup m (pdfFileKey u s y item.1) item) acc)).map Prod.fst).Nodup by
    exact hgen fs [] (by simp)
  intro l
  induction l with
  | nil => intro acc hacc; exact hacc
  | cons f l' ih =>
    intro acc hacc
    rw [List.foldl_cons]
    exact ih _ (keys_nodup_insertGroup hacc)

theorem group_unique {m : List (Str × List (Str × Str))}
    (hnd : (m.map Prod.fst).Nodup) {k : Str} {g1 g2 : List (Str × Str)}
    (h1 : (k, g1) ∈ m) (h2 : (k, g2) ∈ m) : g1 = g2 := by
  induction m with
  | nil => cases h1
  | cons e rest ih =>
    obtain ⟨k0, g0⟩ := e
    simp only [List.map_cons, List.nodup_cons] at hnd
    rcases List.mem_cons.mp h1 with he1 | ht1 <;>
      rcases List.mem_cons.mp h2 with he2 | ht2
    · injection he1 with e1a e1b
      injection he2 with e2a e2b
      rw [e1b, e2b]
    · injection he1 with e1a e1b
      exfalso
      apply hnd.1
      subst e1a
      exact List.mem_map.mpr ⟨(k, g2), ht2, rfl⟩
    · injection he2 with e2a e2b
      exfalso
      apply hnd.1
      subst e2a
      exact List.mem_map.mpr ⟨(k, g1), ht1, rfl⟩
    · exact ih hnd.2 ht1 ht2

/-! ## Characterization of the matching loop -/

theorem matchLoopFrom_eq (pdfMap : List (Str × List (Str × Str))) (u : Bool)
    (col : Str) (rs : List Record) :
    ∀ idx, matchLoopFrom pdfMap u col idx rs =
      ((rs.enumFrom idx).filterMap (fun ir =>
          match classifyRecord pdfMap u col ir.2 with
          | .matchedOne p => some (ir.1, p)
          | _ => none),
       (rs.enumFrom idx).filterMap (fun ir =>
          match classifyRecord pdfMap u col ir.2 with
          | .unmatchedRow => some ir.1
          | _ => none),
       (rs.enumFrom idx).filterMap (fun ir =>
          match classifyRecord pdfMap u col ir.2 with
          | .multiMatchedRow ps => some (ir.1, ps)
          | _ => none)) := by
  induction rs with
  | nil => intro idx; simp [matchLoopFrom, List.enumFrom]
  | cons r rs ih =>
    intro idx
    simp only [matchLoopFrom, ih (idx + 1), List.enumFrom, List.filterMap_cons]
    cases hc : classifyRecord pdfMap u col r <;> simp [hc]

theorem mem_matched_iff (fs : List (Str × Str)) (records : List Record)
    (col : Str) (u s y : Bool) (i : Nat) (p : Str) :
    (i, p) ∈ (match_pdfs_to_records fs records col u s y).1 ↔
      ∃ r, records[i]? = some r ∧
        classifyRecord (buildPdfMap u s y fs) u col r = .matchedOne p := by
  rw [match_pdfs_to_records, matchLoopFrom_eq]
  constructor
  · intro h
    obtain ⟨⟨j, r⟩, hmem, heq⟩ := List.mem_filterMap.mp h
    have hget : records[j]? = some r := by
      have : (j, r) ∈ records.enum := hmem
      exact List.mk_mem_enum_iff_getElem?.mp this
    cases hc : classifyRecord (buildPdfMap u s y fs) u col r with
    | matchedOne q =>
      rw [hc] at heq
      simp only [Option.some.injEq, Prod.mk.injEq] at heq
      obtain ⟨rfl, rfl⟩ := heq
      exact ⟨r, hget, hc⟩
    | unmatchedRow => rw [hc] at heq; cases heq
    | multiMatchedRow ps => rw [hc] at heq; cases heq
  · rintro ⟨r, hget, hclass⟩
    refine List.mem_filterMap.mpr ⟨(i, r), ?_, ?_⟩
    · exact List.mk_mem_enum_iff_getElem?.mpr hget
    · rw [hclass]

theorem mem_unmatched_iff (fs : List (Str × Str)) (records : List Record)
    (col : Str) (u s y : Bool) (i : Nat) :
    i ∈ (match_pdfs_to_records fs records col u s y).2.1 ↔
      ∃ r, records[i]? = some r ∧
        classifyRecord (buildPdfMap u s y fs) u col r = .unmatchedRow := by
  rw [match_pdfs_to_records, matchLoopFrom_eq]
  constructor
  · intro h
    obtain ⟨⟨j, r⟩, hmem, heq⟩ := List.mem_filterMap.mp h
    have hget : records[j]? = some r := List.mk_mem_enum_iff_getElem?.mp hmem
    cases hc : classifyRecord (buildPdfMap u s y fs) u col r with
    | matchedOne q => rw [hc] at heq; cases heq
    | unmatchedRow =>
      rw [hc] at heq
      simp only [Option.some.injEq] at heq
      subst heq
      exact ⟨r, hget, hc⟩
    | multiMatchedRow ps => rw [hc] at heq; cases heq
  · rintro ⟨r, hget, hclass⟩
    refine List.mem_filterMap.mpr ⟨(i, r), ?_, ?_⟩
    · exact List.mk_mem_enum_iff_getElem?.mpr hget
    · rw [hclass]

theorem mem_multi_iff (fs : List (Str × Str)) (records : List Record)
    (col : Str) (u s y : Bool) (i : Nat) (ps : List Str) :
    (i, ps) ∈ (match_pdfs_to_records fs records col u s y).2.2 ↔
      ∃ r, records[i]? = some r ∧
        classifyRecord (buildPdfMap u s y fs) u col r = .multiMatchedRow ps := by
  rw [match_pdfs_to_records, matchLoopFrom_eq]
  constructor
  · intro h
    obtain ⟨⟨j, r⟩, hmem, heq⟩ := List.mem_filterMap.mp h
    have hget : records[j]? = some r := List.mk_mem_enum_iff_getElem?.mp hmem
    cases hc : classifyRecord (buildPdfMap u s y fs) u col r with
    | matchedOne q => rw [hc] at heq; cases heq
    | unmatchedRow => rw [hc] at heq; cases heq
    | multiMatchedRow qs =>
      rw [hc] at heq
      simp only [Option.some.injEq, Prod.mk.injEq] at heq
      obtain ⟨rfl, rfl⟩ := heq
      exact ⟨r, hget, hc⟩
  · rintro ⟨r, hget, hclass⟩
    refine List.mem_filterMap.mpr ⟨(i, r), ?_, ?_⟩
    · exact List.mk_mem_enum_iff_getElem?.mpr hget
    · rw [hclass]

/-! ## Evaluation lemmas for the row classification -/

theorem classifyRecord_empty (pdfMap : List (Str × List (Str × Str))) (u : Bool)
    (col : Str) (r : Record) (h : getCol r col = []) :
    classifyRecord pdfMap u col r = .unmatchedRow := by
  unfold classifyRecord
  rw [h]
  rfl

theorem classifyRecord_of_nonempty (pdfMap : List (Str × List (Str × Str)))
    (u : Bool) (col : Str) (r : Record) (h : getCol r col ≠ []) :
    classifyRecord pdfMap u col r =
      match matchingPdfs pdfMap (rowNormalized u col r) with
      | [] => .unmatchedRow
      | [p] => .matchedOne p
      | ps => .multiMatchedRow ps := by
  have hf : (getCol r col).isEmpty = false := (isEmpty_false_iff (getCol r col)).mpr h
  simp only [classifyRecord, rowNormalized]
  rw [if_neg (bool_ne_true hf)]

theorem match_list_two_or_more {l : List Str} (h : 2 ≤ l.length) :
    (match l with
      | [] => MatchOutcome.unmatchedRow
      | [p] => MatchOutcome.matchedOne p
      | ps => MatchOutcome.multiMatchedRow ps) = .multiMatchedRow l := by
  match l with
  | [] => simp at h
  | [p] => simp at h
  | a :: b :: tl => rfl

/-! ## Claims C1-C4 -/

theorem normalize_text_nil (b : Bool) : normalize_text [] b = [] := by
  cases b <;> rfl

theorem eq_nil_of_isPrefixOf_nil {k : Str} (h : k.isPrefixOf ([] : Str) = true) :
    k = [] := by
  cases k with
  | nil => rfl
  | cons c rest => simp [List.isPrefixOf] at h

/-- The three outcome containers of one match run hold the record index `i`
exactly once over all three. -/
def partitionsExactlyOnce
    (out : List (Nat × Str) × List Nat × List (Nat × List Str)) (i : Nat) : Prop :=
  ((∃ p, (i, p) ∈ out.1) ∨ i ∈ out.2.1 ∨ (∃ ps, (i, ps) ∈ out.2.2)) ∧
  ¬((∃ p, (i, p) ∈ out.1) ∧ i ∈ out.2.1) ∧
  ¬((∃ p, (i, p) ∈ out.1) ∧ (∃ ps, (i, ps) ∈ out.2.2)) ∧
  ¬(i ∈ out.2.1 ∧ (∃ ps, (i, ps) ∈ out.2.2))

/-- C1: for every file set, record list and match column (and every flag
configuration), the match operation classifies every record index
`0..len(records)-1` into exactly one of the matched map, the unmatched list
and the multi-matched list. -/
theorem C1_exactly_one_outcome (fs : List (Str × Str)) (records : List Record)
    (col : Str) (u s y : Bool) (i : Nat) (hi : i < records.length) :
    partitionsExactlyOnce (match_pdfs_to_records fs records col u s y) i := by
  obtain ⟨r, hget⟩ : ∃ r, records[i]? = some r := by
    rw [List.getElem?_eq_getElem hi]
    exact ⟨_, rfl⟩
  have huniq : ∀ r', records[i]? = some r' → r' = r := by
    intro r' h'
    have heq := hget.symm.trans h'
    injection heq with heq
    exact heq.symm
  constructor
  · cases hc : classifyRecord (buildPdfMap u s y fs) u col r with
    | matchedOne p =>
      exact Or.inl ⟨p, (mem_matched_iff fs records col u s y i p).mpr ⟨r, hget, hc⟩⟩
    | unmatchedRow =>
      exact Or.inr (Or.inl ((mem_unmatched_iff fs records col u s y i).mpr
        ⟨r, hget, hc⟩))
    | multiMatchedRow ps =>
      exact Or.inr (Or.inr ⟨ps, (mem_multi_iff fs records col u s y i ps).mpr
        ⟨r, hget, hc⟩⟩)
  · refine ⟨?_, ?_, ?_⟩
    · rintro ⟨⟨p, hp⟩, hu⟩
      obtain ⟨r1, hg1, hc1⟩ := (mem_matched_iff fs records col u s y i p).mp hp
      obtain ⟨r2, hg2, hc2⟩ := (mem_unmatched_iff fs records col u s y i).mp hu
      rw [huniq r1 hg1] at hc1
      rw [huniq r2 hg2] at hc2
      rw [hc1] at hc2
      cases hc2
    · rintro ⟨⟨p, hp⟩, ⟨ps, hm⟩⟩
      obtain ⟨r1, hg1, hc1⟩ := (mem_matched_iff fs records col u s y i p).mp hp
      obtain ⟨r2, hg2, hc2⟩ := (mem_multi_iff fs records col u s y i ps).mp hm
      rw [huniq r1 hg1] at hc1
      rw [huniq r2 hg2] at hc2
      rw [hc1] at hc2
      cases hc2
    · rintro ⟨hu, ⟨ps, hm⟩⟩
      obtain ⟨r1, hg1, hc1⟩ := (mem_unmatched_iff fs records col u s y i).mp hu
      obtain ⟨r2, hg2, hc2⟩ := (mem_multi_iff fs records col u s y i ps).mp hm
      rw [huniq r1 hg1] at hc1
      rw [huniq r2 hg2] at hc2
      rw [hc1] at hc2
      cases hc2

/-- Witness for C1 at a concrete run with one file and one record. -/
theorem C1_exactly_one_outcome_witness :
    partitionsExactlyOnce
      (match_pdfs_to_records [(("trust".toList), ("p1".toList))]
        [[(("Title".toList), ("Trust in teams".toList))]]
        ("Title".toList) false false false) 0 :=
  C1_exactly_one_outcome [(("trust".toList), ("p1".toList))]
    [[(("Title".toList), ("Trust in teams".toList))]]
    ("Title".toList) false false false 0 (by decide)

/-- C2: a file's path is a candidate for a row iff the file's normalized key is
non-empty and the row's normalized match-column value starts with it; on
concrete inputs, file key `studyoftrust` matches row text
`Study of Trust in Teams`, but not vice versa, and a key occurring only in the
middle of the row text never matches. -/
theorem C2_containment_rule :
    (∀ (u s y : Bool) (fs : List (Str × Str)) (col : Str) (r : Record) (p : Str),
      p ∈ matchingPdfs (buildPdfMap u s y fs) (rowNormalized u col r) ↔
        ∃ n, (n, p) ∈ fs ∧ pdfFileKey u s y n ≠ [] ∧
          (pdfFileKey u s y n).isPrefixOf (rowNormalized u col r) = true) ∧
    match_pdfs_to_records [(("studyoftrust".toList), ("p1".toList))]
        [[(("Title".toList), ("Study of Trust in Teams".toList))]]
        ("Title".toList) false false false =
      ([(0, ("p1".toList))], [], []) ∧
    match_pdfs_to_records [(("studyoftrustinteams".toList), ("p1".toList))]
        [[(("Title".toList), ("Study of Trust".toList))]]
        ("Title".toList) false false false =
      ([], [0], []) ∧
    match_pdfs_to_records [(("oftrust".toList), ("p1".toList))]
        [[(("Title".toList), ("Study of Trust in Teams".toList))]]
        ("Title".toList) false false false =
      ([], [0], []) := by
  refine ⟨?_, by decide, by decide, by decide⟩
  intro u s y fs col r p
  exact matchesRow_iff u s y fs (rowNormalized u col r) p

/-- C3 (amended): a record with a missing or empty match-column value is always
classified unmatched, independently of the file set; the row saved for it
carries the caller's single generic unmatch reason (shared by every unmatched
row), not a distinct empty-field reason. -/
theorem C3_empty_value_unmatched (fs : List (Str × Str)) (records : List Record)
    (col : Str) (u s y : Bool) (i : Nat) (r : Record)
    (hget : records[i]? = some r) (hempty : getCol r col = []) :
    i ∈ (match_pdfs_to_records fs records col u s y).2.1 ∧
    ∀ row ∈ save_unmatched_csv_records records
        (match_pdfs_to_records fs records col u s y).2.1
        processJournalUnmatchReason,
      getCol row unmatchReasonCol = processJournalUnmatchReason := by
  constructor
  · exact (mem_unmatched_iff fs records col u s y i).mpr
      ⟨r, hget, classifyRecord_empty _ u col r hempty⟩
  · intro row hrow
    obtain ⟨idx, _, heq⟩ := List.mem_filterMap.mp hrow
    obtain ⟨r', _, hr'⟩ := Option.map_eq_some'.mp heq
    rw [← hr']
    exact getCol_setCol_self r' unmatchReasonCol processJournalUnmatchReason

/-- Witness for C3 (amended) at a concrete empty-Title record. -/
theorem C3_empty_value_unmatched_witness :
    0 ∈ (match_pdfs_to_records [(("somefile".toList), ("p1".toList))]
        [[(("Title".toList), ([] : Str))]] ("Title".toList) false false true).2.1 ∧
    ∀ row ∈ save_unmatched_csv_records [[(("Title".toList), ([] : Str))]]
        (match_pdfs_to_records [(("somefile".toList), ("p1".toList))]
          [[(("Title".toList), ([] : Str))]] ("Title".toList) false false true).2.1
        processJournalUnmatchReason,
      getCol row unmatchReasonCol = processJournalUnmatchReason :=
  C3_empty_value_unmatched [(("somefile".toList), ("p1".toList))]
    [[(("Title".toList), ([] : Str))]] ("Title".toList) false false true 0
    [(("Title".toList), ([] : Str))] rfl rfl

/-- C3 counterexample to the claim as stated: at a concrete empty-Title record
the outcome is unmatched, but the reason attached to the saved row is the
single generic no-matching-file reason of `process_journal`, not the spec's
distinct `"empty field"` reason. -/
theorem C3_counterexample :
    (match_pdfs_to_records [(("somefile".toList), ("p1".toList))]
        [[(("Title".toList), ([] : Str))]] ("Title".toList) false false true).2.1 =
      [0] ∧
    ((save_unmatched_csv_records [[(("Title".toList), ([] : Str))]] [0]
        processJournalUnmatchReason).map
      (fun row => getCol row unmatchReasonCol)) = [processJournalUnmatchReason] ∧
    processJournalUnmatchReason ≠ specEmptyFieldReason := by
  refine ⟨by decide, by decide, by decide⟩

/-- C4: if two distinct files share the same non-empty normalized key and that
key prefixes a row's normalized match-column value, the row is multi-matched
with both files' paths among the candidates, and never single-matched. -/
theorem C4_same_key_multi_matched (fs : List (Str × Str)) (records : List Record)
    (col : Str) (u s y : Bool) (i : Nat) (r : Record)
    (f1 p1 f2 p2 : Str)
    (hget : records[i]? = some r)
    (h1 : (f1, p1) ∈ fs) (h2 : (f2, p2) ∈ fs) (hne : f1 ≠ f2)
    (hkeq : pdfFileKey u s y f1 = pdfFileKey u s y f2)
    (hk : pdfFileKey u s y f1 ≠ [])
    (hpre : (pdfFileKey u s y f1).isPrefixOf (rowNormalized u col r) = true) :
    (∃ ps, (i, ps) ∈ (match_pdfs_to_records fs records col u s y).2.2 ∧
      p1 ∈ ps ∧ p2 ∈ ps) ∧
    ∀ p, (i, p) ∉ (match_pdfs_to_records fs records col u s y).1 := by
  have hcol : getCol r col ≠ [] := by
    intro hc
    have hnorm : rowNormalized u col r = [] := by
      unfold rowNormalized
      rw [hc]
      cases u <;> simp [normalize_text_nil]
    rw [hnorm] at hpre
    exact hk (eq_nil_of_isPrefixOf_nil hpre)
  obtain ⟨g1, hg1, hin1⟩ := buildPdfMap_complete (u := u) (s := s) (y := y) h1
  obtain ⟨g2, hg2, hin2⟩ := buildPdfMap_complete (u := u) (s := s) (y := y) h2
  rw [show pdfFileKey u s y (f2, p2).1 = pdfFileKey u s y (f1, p1).1 from hkeq.symm]
    at hg2
  have hgeq : g1 = g2 := group_unique (buildPdfMap_keys_nodup u s y fs) hg1 hg2
  subst hgeq
  have hlen2 : 2 ≤ g1.length :=
    two_mem_length hin1 hin2 (fun hcontra => hne (congrArg Prod.fst hcontra))
  have hmlen : 2 ≤ (matchingPdfs (buildPdfMap u s y fs)
      (rowNormalized u col r)).length :=
    le_trans hlen2 (matchingPdfs_length_ge hg1 hk hpre)
  have hclass := classifyRecord_of_nonempty (buildPdfMap u s y fs) u col r hcol
  rw [match_list_two_or_more hmlen] at hclass
  constructor
  · refine ⟨matchingPdfs (buildPdfMap u s y fs) (rowNormalized u col r),
      (mem_multi_iff fs records col u s y i _).mpr ⟨r, hget, hclass⟩, ?_, ?_⟩
    · exact (matchesRow_iff u s y fs (rowNormalized u col r) p1).mpr
        ⟨f1, h1, hk, hpre⟩
    · exact (matchesRow_iff u s y fs (rowNormalized u col r) p2).mpr
        ⟨f2, h2, by rwa [← hkeq], by rwa [← hkeq]⟩
  · intro p hp
    obtain ⟨r', hg', hc'⟩ := (mem_matched_iff fs records col u s y i p).mp hp
    have hr' : r' = r := by
      have heq := hget.symm.trans hg'
      injection heq with heq
      exact heq.symm
    rw [hr', hclass] at hc'
    cases hc'

/-- Witness for C4: files `Trust!` and `trust` both normalize to key `trust`,
which prefixes the row text `Trust in teams`; the row is multi-matched with
both paths and matched to neither alone. -/
theorem C4_same_key_multi_matched_witness :
    (∃ ps, (0, ps) ∈ (match_pdfs_to_records
        [(("Trust!".toList), ("p1".toList)), (("trust".toList), ("p2".toList))]
        [[(("Title".toList), ("Trust in teams".toList))]]
        ("Title".toList) false false false).2.2 ∧
      ("p1".toList) ∈ ps ∧ ("p2".toList) ∈ ps) ∧
    ∀ p, (0, p) ∉ (match_pdfs_to_records
        [(("Trust!".toList), ("p1".toList)), (("trust".toList), ("p2".toList))]
        [[(("Title".toList), ("Trust in teams".toList))]]
        ("Title".toList) false false false).1 :=
  C4_same_key_multi_matched
    [(("Trust!".toList), ("p1".toList)), (("trust".toList), ("p2".toList))]
    [[(("Title".toList), ("Trust in teams".toList))]]
    ("Title".toList) false false false 0
    [(("Title".toList), ("Trust in teams".toList))]
    ("Trust!".toList) ("p1".toList) ("trust".toList) ("p2".toList)
    rfl (by decide) (by decide) (by decide) (by decide) (by decide) (by decide)

/-! ## The merge pipeline -/

theorem unmatchedMergeCfg_dedupKey (ex : List Str) :
    (unmatchedMergeCfg ex).dedupKey = doiCol := rfl

theorem unmatchedMergeCfg_excludeKeys (ex : List Str) :
    (unmatchedMergeCfg ex).excludeKeys = ex := rfl

theorem unmatchedMergeCfg_deduplicate (ex : List Str) :
    (unmatchedMergeCfg ex).deduplicate = true := rfl

theorem processRow_unmatchedMergeCfg (ex : List Str) (j : Str) (row : Record) :
    processRow (unmatchedMergeCfg ex) j row = addLinkRow row := rfl

theorem getCol_addLinkRow_doi (row : Record) :
    getCol (addLinkRow row) doiCol = getCol row doiCol :=
  getCol_setCol_ne row _ (by decide)

theorem mergePartRows_nil (cfg : MergeConfig) (j : Str) (seen : List Str) :
    mergePartRows cfg j [] seen = ([], seen) := rfl

theorem mergePartRows_cons_excluded (cfg : MergeConfig) (j : Str) (row : Record)
    (rest : List Record) (seen : List Str)
    (h : getCol row cfg.dedupKey ∈ cfg.excludeKeys) :
    mergePartRows cfg j (row :: rest) seen = mergePartRows cfg j rest seen := by
  simp only [mergePartRows]
  rw [if_pos h]

theorem mergePartRows_cons_dup (cfg : MergeConfig) (j : Str) (row : Record)
    (rest : List Record) (seen : List Str)
    (h : getCol row cfg.dedupKey ∉ cfg.excludeKeys)
    (hd : (cfg.deduplicate && decide (getCol row cfg.dedupKey ∈ seen)) = true) :
    mergePartRows cfg j (row :: rest) seen = mergePartRows cfg j rest seen := by
  simp only [mergePartRows]
  rw [if_neg h, if_pos hd]

theorem mergePartRows_cons_keep (cfg : MergeConfig) (j : Str) (row : Record)
    (rest : List Record) (seen : List Str)
    (h : getCol row cfg.dedupKey ∉ cfg.excludeKeys)
    (hd : (cfg.deduplicate && decide (getCol row cfg.dedupKey ∈ seen)) = false) :
    mergePartRows cfg j (row :: rest) seen =
      (processRow cfg j row ::
        (mergePartRows cfg j rest
          (if cfg.deduplicate then getCol row cfg.dedupKey :: seen else seen)).1,
       (mergePartRows cfg j rest
          (if cfg.deduplicate then getCol row cfg.dedupKey :: seen else seen)).2) := by
  simp only [mergePartRows]
  rw [if_neg h, if_neg (bool_ne_true hd)]

/-- Every row kept by the inner merge loop is a decorated input row whose
dedup-key value escaped the exclusion set. -/
theorem mergePartRows_member (cfg : MergeConfig) (j : Str) :
    ∀ (rows : List Record) (seen : List Str) (row : Record),
    row ∈ (mergePartRows cfg j rows seen).1 →
    ∃ row0, row0 ∈ rows ∧ row = processRow cfg j row0 ∧
      getCol row0 cfg.dedupKey ∉ cfg.excludeKeys := by
  intro rows
  induction rows with
  | nil =>
    intro seen row hrow
    rw [mergePartRows_nil] at hrow
    cases hrow
  | cons r0 rest ih =>
    intro seen row hrow
    by_cases hex : getCol r0 cfg.dedupKey ∈ cfg.excludeKeys
    · rw [mergePartRows_cons_excluded cfg j r0 rest seen hex] at hrow
      obtain ⟨row0, hmem, heq, hkey⟩ := ih seen row hrow
      exact ⟨row0, List.mem_cons_of_mem _ hmem, heq, hkey⟩
    · cases hd : (cfg.deduplicate && decide (getCol r0 cfg.dedupKey ∈ seen)) with
      | true =>
        rw [mergePartRows_cons_dup cfg j r0 rest seen hex hd] at hrow
        obtain ⟨row0, hmem, heq, hkey⟩ := ih seen row hrow
        exact ⟨row0, List.mem_cons_of_mem _ hmem, heq, hkey⟩
      | false =>
        rw [mergePartRows_cons_keep cfg j r0 rest seen hex hd] at hrow
        rcases List.mem_cons.mp hrow with heq | htail
        · exact ⟨r0, List.mem_cons_self _ _, heq, hex⟩
        · obtain ⟨row0, hmem, heq, hkey⟩ := ih _ row htail
          exact ⟨row0, List.mem_cons_of_mem _ hmem, heq, hkey⟩

/-- C5: in the unmatched merge, no output row's `DOI` value lies in the
exclusion set (the identifiers collected from the merged matched set). -/
theorem C5_exclusion_effective (parts : List (Str × List Record)) (ex : List Str)
    (row : Record) (hrow : row ∈ merge_csv_files (unmatchedMergeCfg ex) parts) :
    getCol row doiCol ∉ ex := by
  suffices h : ∀ (ps : List (Str × List Record)) (seen : List Str),
      row ∈ mergePartsLoop (unmatchedMergeCfg ex) ps seen →
      getCol row doiCol ∉ ex from h parts [] hrow
  intro ps
  induction ps with
  | nil =>
    intro seen h
    cases h
  | cons pr rest ih =>
    intro seen h
    obtain ⟨j, rows⟩ := pr
    rw [mergePartsLoop] at h
    rcases List.mem_append.mp h with hin | hin
    · obtain ⟨row0, _, heq, hkey⟩ :=
        mergePartRows_member (unmatchedMergeCfg ex) j rows seen row hin
      rw [heq, processRow_unmatchedMergeCfg, getCol_addLinkRow_doi]
      exact hkey
    · exact ih _ hin

/-- Witness for C5: one partition, one excluded row and one kept row. -/
theorem C5_exclusion_effective_witness :
    getCol (addLinkRow [(doiCol, ("10.1/a".toList))]) doiCol ∉
      [("10.9/z".toList)] :=
  C5_exclusion_effective
    [(("A".toList), [[(doiCol, ("10.9/z".toList))], [(doiCol, ("10.1/a".toList))]])]
    [("10.9/z".toList)] (addLinkRow [(doiCol, ("10.1/a".toList))]) (by decide)

/-- Which dedup keys are recorded after the inner merge loop: the incoming ones
plus the keys of the non-excluded rows of the partition. -/
theorem mergePartRows_seen_iff (ex : List Str) (j v : Str) (hv : v ∉ ex) :
    ∀ (rows : List Record) (seen : List Str),
    v ∈ (mergePartRows (unmatchedMergeCfg ex) j rows seen).2 ↔
      v ∈ seen ∨ ∃ r ∈ rows, getCol r doiCol = v := by
  intro rows
  induction rows with
  | nil =>
    intro seen
    rw [mergePartRows_nil]
    simp
  | cons r0 rest ih =>
    intro seen
    by_cases hex : getCol r0 (unmatchedMergeCfg ex).dedupKey ∈
        (unmatchedMergeCfg ex).excludeKeys
    · rw [mergePartRows_cons_excluded _ _ _ _ _ hex, ih seen]
      have hr0 : ¬ getCol r0 doiCol = v := by
        intro hc
        rw [unmatchedMergeCfg_dedupKey, hc, unmatchedMergeCfg_excludeKeys] at hex
        exact hv hex
      simp only [List.mem_cons]
      constructor
      · rintro (h | ⟨r, hr, hval⟩)
        · exact Or.inl h
        · exact Or.inr ⟨r, Or.inr hr, hval⟩
      · rintro (h | ⟨r, hr | hr, hval⟩)
        · exact Or.inl h
        · exact absurd (hr ▸ hval) hr0
        · exact Or.inr ⟨r, hr, hval⟩
    · cases hd : ((unmatchedMergeCfg ex).deduplicate &&
          decide (getCol r0 (unmatchedMergeCfg ex).dedupKey ∈ seen)) with
      | true =>
        rw [mergePartRows_cons_dup _ _ _ _ _ hex hd, ih seen]
        have hseen : getCol r0 doiCol ∈ seen := by
          rw [unmatchedMergeCfg_deduplicate, Bool.true_and, decide_eq_true_iff]
            at hd
          exact hd
        simp only [List.mem_cons]
        constructor
        · rintro (h | ⟨r, hr, hval⟩)
          · exact Or.inl h
          · exact Or.inr ⟨r, Or.inr hr, hval⟩
        · rintro (h | ⟨r, hr | hr, hval⟩)
          · exact Or.inl h
          · exact Or.inl (by rw [← hval, hr]; exact hseen)
          · exact Or.inr ⟨r, hr, hval⟩
      | false =>
        rw [mergePartRows_cons_keep _ _ _ _ _ hex hd]
        simp only [unmatchedMergeCfg_deduplicate, if_pos, unmatchedMergeCfg_dedupKey]
        rw [ih (getCol r0 doiCol :: seen)]
        simp only [List.mem_cons]
        constructor
        · rintro ((h | h) | ⟨r, hr, hval⟩)
          · exact Or.inr ⟨r0, Or.inl rfl, h.symm⟩
          · exact Or.inl h
          · exact Or.inr ⟨r, Or.inr hr, hval⟩
        · rintro (h | ⟨r, hr | hr, hval⟩)
          · exact Or.inl (Or.inr h)
          · exact Or.inl (Or.inl (by rw [← hval, hr]))
          · exact Or.inr ⟨r, hr, hval⟩

/-- The output rows of the inner merge loop carrying dedup key `v`: none when
`v` was already seen, otherwise exactly the decorated first row bearing `v`. -/
theorem mergePartRows_filter_char (ex : List Str) (j v : Str) (hv : v ∉ ex) :
    ∀ (rows : List Record) (seen : List Str),
    ((mergePartRows (unmatchedMergeCfg ex) j rows seen).1.filter
        (fun r => getCol r doiCol == v)) =
      (if v ∈ seen then []
       else ((rows.find? (fun r => getCol r doiCol == v)).map addLinkRow).toList) := by
  intro rows
  induction rows with
  | nil =>
    intro seen
    rw [mergePartRows_nil]
    simp only [List.filter_nil, List.find?_nil, Option.map_none', Option.toList_none]
    rw [ite_self]
  | cons r0 rest ih =>
    intro seen
    by_cases hex : getCol r0 (unmatchedMergeCfg ex).dedupKey ∈
        (unmatchedMergeCfg ex).excludeKeys
    · have hr0 : (getCol r0 doiCol == v) = false := by
        rw [unmatchedMergeCfg_dedupKey, unmatchedMergeCfg_excludeKeys] at hex
        refine beq_eq_false_iff_ne.mpr ?_
        intro hc
        exact hv (hc ▸ hex)
      rw [mergePartRows_cons_excluded _ _ _ _ _ hex, ih seen,
        List.find?_cons_of_neg _ (by simp [hr0])]
    · cases hd : ((unmatchedMergeCfg ex).deduplicate &&
          decide (getCol r0 (unmatchedMergeCfg ex).dedupKey ∈ seen)) with
      | true =>
        have hseen : getCol r0 doiCol ∈ seen := by
          rw [unmatchedMergeCfg_deduplicate, Bool.true_and, decide_eq_true_iff,
            unmatchedMergeCfg_dedupKey] at hd
          exact hd
        rw [mergePartRows_cons_dup _ _ _ _ _ hex hd, ih seen]
        by_cases hval : (getCol r0 doiCol == v) = true
        · have hvv : v ∈ seen := (beq_iff_eq.mp hval) ▸ hseen
          rw [if_pos hvv, if_pos hvv]
        · rw [@List.find?_cons_of_neg _ (fun r => getCol r doiCol == v) r0 rest hval]
      | false =>
        have hnotseen : getCol r0 doiCol ∉ seen := by
          rw [unmatchedMergeCfg_deduplicate, Bool.true_and,
            unmatchedMergeCfg_dedupKey] at hd
          simpa using hd
        rw [mergePartRows_cons_keep _ _ _ _ _ hex hd]
        simp only [unmatchedMergeCfg_deduplicate, if_pos, unmatchedMergeCfg_dedupKey]
        rw [List.filter_cons]
        by_cases hval : (getCol r0 doiCol == v) = true
        · have hvr : getCol r0 doiCol = v := beq_iff_eq.mp hval
          have hpv : (getCol (processRow (unmatchedMergeCfg ex) j r0) doiCol == v) =
              true := by
            rw [processRow_unmatchedMergeCfg, getCol_addLinkRow_doi]
            exact hval
          rw [if_pos hpv, ih (getCol r0 doiCol :: seen),
            if_pos (by rw [hvr]; exact List.mem_cons_self _ _),
            @List.find?_cons_of_pos _ (fun r => getCol r doiCol == v) r0 rest hval]
          rw [if_neg (by rw [← hvr]; exact hnotseen)]
          rfl
        · have hpv : ¬ ((getCol (processRow (unmatchedMergeCfg ex) j r0) doiCol == v) =
              true) := by
            rw [processRow_unmatchedMergeCfg, getCol_addLinkRow_doi]
            exact hval
          rw [if_neg hpv, ih (getCol r0 doiCol :: seen),
            @List.find?_cons_of_neg _ (fun r => getCol r doiCol == v) r0 rest hval]
          have hvne : v ≠ getCol r0 doiCol := by
            intro hc
            exact hval (beq_iff_eq.mpr hc.symm)
          by_cases hs : v ∈ seen
          · rw [if_pos (List.mem_cons_of_mem _ hs), if_pos hs]
          · rw [if_neg (by simp [hvne, hs]), if_neg hs]

/-- The merged output rows carrying dedup key `v`: exactly the decorated first
`v`-row of the concatenated partitions, when `v` is neither excluded nor
already seen. -/
theorem mergeParts_filter_char (ex : List Str) (v : Str) (hv : v ∉ ex) :
    ∀ (parts : List (Str × List Record)) (seen : List Str),
    ((mergePartsLoop (unmatchedMergeCfg ex) parts seen).filter
        (fun r => getCol r doiCol == v)) =
      (if v ∈ seen then []
       else (((parts.flatMap Prod.snd).find? (fun r => getCol r doiCol == v)).map
          addLinkRow).toList) := by
  intro parts
  induction parts with
  | nil =>
    intro seen
    simp only [mergePartsLoop, List.filter_nil, List.flatMap_nil, List.find?_nil,
      Option.map_none', Option.toList_none]
    rw [ite_self]
  | cons pr rest ih =>
    intro seen
    obtain ⟨j, rows⟩ := pr
    rw [mergePartsLoop]
    rw [List.filter_append, mergePartRows_filter_char ex j v hv rows seen,
      ih ((mergePartRows (unmatchedMergeCfg ex) j rows seen).2)]
    rw [show (((j, rows) :: rest).flatMap Prod.snd) = rows ++ rest.flatMap Prod.snd
      from rfl]
    rw [List.find?_append]
    by_cases hs : v ∈ seen
    · rw [if_pos hs, if_pos hs,
        if_pos ((mergePartRows_seen_iff ex j v hv rows seen).mpr (Or.inl hs))]
      rfl
    · cases hf : rows.find? (fun r => getCol r doiCol == v) with
      | some r1 =>
        have hr1 : ∃ r ∈ rows, getCol r doiCol = v := by
          refine ⟨r1, List.mem_of_find?_eq_some hf, ?_⟩
          have := List.find?_some hf
          exact beq_iff_eq.mp this
        rw [if_neg hs,
          if_pos ((mergePartRows_seen_iff ex j v hv rows seen).mpr (Or.inr hr1)),
          if_neg hs]
        simp [Option.or]
      | none =>
        have hnone : ¬ ∃ r ∈ rows, getCol r doiCol = v := by
          rintro ⟨r, hr, hval⟩
          have := List.find?_eq_none.mp hf r hr
          exact this (beq_iff_eq.mpr hval)
        rw [if_neg hs,
          if_neg (by
            rw [mergePartRows_seen_iff ex j v hv rows seen]
            rintro (h | h)
            · exact hs h
            · exact hnone h),
          if_neg hs, Option.none_or]
        simp

/-- C6: merging unmatched partitions deduplicates by first-seen `DOI`: when a
non-excluded value `v` occurs in the concatenated partitions, exactly one
output row carries it, namely the decorated first such row in merge order. -/
theorem C6_first_seen_dedup (parts : List (Str × List Record)) (ex : List Str)
    (v : Str) (r0 : Record) (hv : v ∉ ex)
    (hfind : (parts.flatMap Prod.snd).find? (fun r => getCol r doiCol == v) =
      some r0) :
    (merge_csv_files (unmatchedMergeCfg ex) parts).filter
        (fun r => getCol r doiCol == v) = [addLinkRow r0] := by
  rw [merge_csv_files, mergeParts_filter_char ex v hv parts [],
    if_neg (List.not_mem_nil v), hfind]
  rfl

/-- Witness for C6: two partitions both containing a row with DOI `10.1111/x`;
the survivor is the first partition's row. -/
theorem C6_first_seen_dedup_witness :
    (merge_csv_files (unmatchedMergeCfg [])
        [(("A".toList), [[(doiCol, ("10.1111/x".toList)), (("T".toList), ("a".toList))]]),
         (("B".toList), [[(doiCol, ("10.1111/x".toList)), (("T".toList), ("b".toList))]])]).filter
        (fun r => getCol r doiCol == ("10.1111/x".toList)) =
      [addLinkRow [(doiCol, ("10.1111/x".toList)), (("T".toList), ("a".toList))]] :=
  C6_first_seen_dedup
    [(("A".toList), [[(doiCol, ("10.1111/x".toList)), (("T".toList), ("a".toList))]]),
     (("B".toList), [[(doiCol, ("10.1111/x".toList)), (("T".toList), ("b".toList))]])]
    [] ("10.1111/x".toList)
    [(doiCol, ("10.1111/x".toList)), (("T".toList), ("a".toList))]
    (List.not_mem_nil _) (by decide)

/-- C10: under deduplication the empty string is an ordinary dedup key: at most
one row with a missing or empty `DOI` survives the merge, namely the decorated
first such row encountered. -/
theorem C10_empty_key_dedup (parts : List (Str × List Record)) (ex : List Str)
    (hv : ([] : Str) ∉ ex) :
    ((merge_csv_files (unmatchedMergeCfg ex) parts).filter
        (fun r => getCol r doiCol == ([] : Str))).length ≤ 1 ∧
    ∀ r0, (parts.flatMap Prod.snd).find? (fun r => getCol r doiCol == ([] : Str)) =
        some r0 →
      (merge_csv_files (unmatchedMergeCfg ex) parts).filter
          (fun r => getCol r doiCol == ([] : Str)) = [addLinkRow r0] := by
  constructor
  · rw [merge_csv_files, mergeParts_filter_char ex [] hv parts [],
      if_neg (List.not_mem_nil _)]
    cases (parts.flatMap Prod.snd).find? (fun r => getCol r doiCol == ([] : Str)) <;>
      simp
  · intro r0 hfind
    rw [merge_csv_files, mergeParts_filter_char ex [] hv parts [],
      if_neg (List.not_mem_nil _), hfind]
    rfl

/-- Witness for C10: two partitions each holding an empty-DOI row; only the
first survives. -/
theorem C10_empty_key_dedup_witness :
    ((merge_csv_files (unmatchedMergeCfg [])
        [(("A".toList), [[(doiCol, ([] : Str)), (("T".toList), ("a".toList))]]),
         (("B".toList), [[(("T".toList), ("b".toList))]])]).filter
        (fun r => getCol r doiCol == ([] : Str))).length ≤ 1 ∧
    ∀ r0, (([(("A".toList), [[(doiCol, ([] : Str)), (("T".toList), ("a".toList))]]),
         (("B".toList), [[(("T".toList), ("b".toList))]])] :
          List (Str × List Record)).flatMap Prod.snd).find?
        (fun r => getCol r doiCol == ([] : Str)) = some r0 →
      (merge_csv_files (unmatchedMergeCfg [])
        [(("A".toList), [[(doiCol, ([] : Str)), (("T".toList), ("a".toList))]]),
         (("B".toList), [[(("T".toList), ("b".toList))]])]).filter
          (fun r => getCol r doiCol == ([] : Str)) = [addLinkRow r0] :=
  C10_empty_key_dedup
    [(("A".toList), [[(doiCol, ([] : Str)), (("T".toList), ("a".toList))]]),
     (("B".toList), [[(("T".toList), ("b".toList))]])]
    [] (List.not_mem_nil _)

/-! ## Duplicate detection -/

theorem countValuesLoop_skip_empty (col : Str) (keep_numbers : Bool) :
    ∀ (records : List Record) (acc : List (Str × Nat)),
    countValuesLoop col keep_numbers records acc =
      countValuesLoop col keep_numbers
        (records.filter (fun r => !(getCol r col).isEmpty)) acc := by
  intro records
  induction records with
  | nil => intro acc; rfl
  | cons r0 rest ih =>
    intro acc
    rw [List.filter_cons]
    by_cases he : (getCol r0 col).isEmpty = true
    · rw [countValuesLoop, if_pos he, if_neg (by simp [he])]
      exact ih acc
    · have he' : (getCol r0 col).isEmpty = false := eq_false_of_ne_true he
      rw [countValuesLoop, if_neg he, if_pos (by simp [he'])]
      rw [countValuesLoop, if_neg he]
      exact ih _

theorem countValuesLoop_all_empty (col : Str) (keep_numbers : Bool) :
    ∀ (records : List Record) (acc : List (Str × Nat)),
    (∀ r ∈ records, getCol r col = []) →
    countValuesLoop col keep_numbers records acc = acc := by
  intro records
  induction records with
  | nil => intro acc _; rfl
  | cons r0 rest ih =>
    intro acc hall
    have he : (getCol r0 col).isEmpty = true := by
      rw [hall r0 (List.mem_cons_self _ _)]
      rfl
    rw [countValuesLoop, if_pos he]
    exact ih acc (fun r hr => hall r (List.mem_cons_of_mem _ hr))

/-- C9: duplicate detection over a dataset column ignores rows whose raw value
in that column is missing or empty: the counting state is literally the one
computed from the non-empty rows alone, and a record list of only empty-valued
rows reports no duplicates at all. -/
theorem C9_empty_values_ignored (records : List Record) (col : Str)
    (keep_numbers : Bool) :
    countValues records col keep_numbers =
      countValues (records.filter (fun r => !(getCol r col).isEmpty))
        col keep_numbers ∧
    ((∀ r ∈ records, getCol r col = []) →
      check_duplicates_in_csv records col keep_numbers = []) := by
  constructor
  · exact countValuesLoop_skip_empty col keep_numbers records []
  · intro hall
    unfold check_duplicates_in_csv countValues
    rw [countValuesLoop_all_empty col keep_numbers records [] hall]
    rfl

/-- Witness for C9: two records sharing the empty value report no duplicate. -/
theorem C9_empty_values_ignored_witness :
    countValues [[(("Title".toList), ([] : Str))], []] ("Title".toList) false =
      countValues
        (([[(("Title".toList), ([] : Str))], []] : List Record).filter
          (fun r => !(getCol r ("Title".toList)).isEmpty))
        ("Title".toList) false ∧
    check_duplicates_in_csv [[(("Title".toList), ([] : Str))], []]
      ("Title".toList) false = [] :=
  ⟨(C9_empty_values_ignored [[(("Title".toList), ([] : Str))], []]
      ("Title".toList) false).1,
   (C9_empty_values_ignored [[(("Title".toList), ([] : Str))], []]
      ("Title".toList) false).2 (by decide)⟩

end MatchRecords
